import Mathlib

/-!
Verification development for the versioned component-state store and refresh
orchestrator of the repository: `BlobStorageStateStorage`
(`dagster/_core/storage/defs_state/blob_storage_state_storage.py`) and the
`refresh-component-state` orchestration (`dagster_dg_cli/cli/utils.py`).

The embedding is a shallow one: stateful Python methods become Lean functions
with explicit state passing.  A mutating operation returns a pair
`Option StoreErr × State`: the first component is `some e` when the Python
method raises, and the second component is the state at the moment the method
returns or raises (Python side effects performed before a raise persist).

Mappings (Python `dict`, the blob namespace, the cursor kv table, the local
filesystem) are embedded as association lists with Python-`dict` update
semantics: an insert updates the first matching key in place and otherwise
appends, preserving insertion order.
-/

set_option autoImplicit false

namespace DefsState

/-- Association-list lookup: first entry whose key matches. -/
def alistLookup {α β : Type} [DecidableEq α] : List (α × β) → α → Option β
  | [], _ => none
  | (k, v) :: rest, a => if k = a then some v else alistLookup rest a

/-- Association-list insert with Python-`dict` semantics: update the first
occurrence of the key in place, otherwise append at the end. -/
def alistInsert {α β : Type} [DecidableEq α] : List (α × β) → α → β → List (α × β)
  | [], a, b => [(a, b)]
  | (k, v) :: rest, a, b =>
      if k = a then (a, b) :: rest else (k, v) :: alistInsert rest a b

/-- The keys of an association list, in order. -/
def alistKeys {α β : Type} (m : List (α × β)) : List α := m.map Prod.fst

/-! Data model -/

/-- Byte strings are modelled as lists of byte values. -/
abbrev Bytes := List Nat

/-- Modelled from the spec: the per-key record stored inside the pointer
record (`DefsStateInfo` entry) — the class itself is not under `src/`; the
spec describes it as "a small record `\x7bversion, [optional metadata]\x7d`".
Only the version is modelled. -/
structure StateInfo where
  version : String
  deriving DecidableEq, Repr

/-- Modelled from the spec: `DefsStateInfo`, "mapping from component key to a
small record `\x7bversion\x7d`" — the class is not under `src/`; its
`info_mapping` field name is taken from the repository's tests. -/
structure DefsStateInfo where
  info_mapping : List (String × StateInfo)
  deriving DecidableEq, Repr

/-- Error taxonomy of the store and orchestrator (spec §7).  `stateNotFound`
is the `ValueError` raised by `download_state_to_path`; `serializationError`
is a `deserialize_value` failure on the pointer record; `backendError` is an
I/O failure of the blob write; `sourceReadError` is a failure reading the
local source file; `componentRefreshError` is a failure inside a component's
own `refresh_state`. -/
inductive StoreErr where
  | stateNotFound (key version : String)
  | serializationError
  | backendError
  | sourceReadError
  | componentRefreshError
  deriving DecidableEq, Repr

/-- Modelled from the spec: the serialized form of a pointer-record value.
`serialize_value`/`deserialize_value` (dagster_shared serdes) are not under
`src/`; the spec treats the encoding as opaque, so a raw value is either a
faithful encoding of a `DefsStateInfo` or undecodable garbage. -/
inductive Raw where
  | good (info : DefsStateInfo)
  | corrupt
  deriving DecidableEq, Repr

/-- Modelled from the spec: `serialize_value` on a `DefsStateInfo`. -/
def serialize_value (info : DefsStateInfo) : Raw := Raw.good info

/-- Modelled from the spec: `deserialize_value(raw, DefsStateInfo)`; raises a
serialization error when the bytes cannot be decoded ("must not silently
treat as empty"). -/
def deserialize_value : Raw → Except StoreErr DefsStateInfo
  | Raw.good info => Except.ok info
  | Raw.corrupt => Except.error StoreErr.serializationError

/-- The local filesystem visible to `download`/`upload`: path → bytes. -/
abbrev LocalFS := List (String × Bytes)

/-- State of a `BlobStorageStateStorage` instance: the blob namespace
(`base_dir/key/version → bytes`) and the run storage's cursor kv table
(spec §6: a generic `get(key) → bytes|absent` / `set(key, bytes)` substrate,
modelled from the spec because the run storage is not under `src/`). -/
structure StorageState where
  blobs : List ((String × String) × Bytes)
  kvs : List (String × Raw)
  deriving DecidableEq, Repr

/-- `BlobStorageStateStorage.INFO_KEY`: the fixed well-known cursor key. -/
def INFO_KEY : String := "__latest_defs_state_info__"

/-- Modelled from the spec: `run_storage.get_cursor_values(\x7bk\x7d).get(k)`. -/
def kvGet (kvs : List (String × Raw)) (k : String) : Option Raw :=
  alistLookup kvs k

/-- Modelled from the spec: `run_storage.set_cursor_values(\x7bk: v\x7d)`. -/
def kvSet (kvs : List (String × Raw)) (k : String) (v : Raw) : List (String × Raw) :=
  alistInsert kvs k v

/-! Storage operations (from `blob_storage_state_storage.py`) -/

/-- `BlobStorageStateStorage.get_latest_defs_state_info`: read the cursor
value under `INFO_KEY`; `none` when absent, otherwise deserialize (which
raises on undecodable bytes). -/
def get_latest_defs_state_info (s : StorageState) :
    Except StoreErr (Option DefsStateInfo) :=
  match kvGet s.kvs INFO_KEY with
  | none => Except.ok none
  | some raw =>
      match deserialize_value raw with
      | Except.ok info => Except.ok (some info)
      | Except.error e => Except.error e

/-- Modelled from the spec: `DefsStateStorage.get_updated_defs_state_info`
(base-class method, not under `src/`): "read current `DefsStateInfo` (or
empty if absent), set/overwrite the entry for `key` to `\x7bversion\x7d`". -/
def get_updated_defs_state_info (s : StorageState) (key version : String) :
    Except StoreErr DefsStateInfo :=
  match get_latest_defs_state_info s with
  | Except.error e => Except.error e
  | Except.ok cur =>
      let m := (cur.getD ⟨[]⟩).info_mapping
      Except.ok ⟨alistInsert m key ⟨version⟩⟩

/-- `BlobStorageStateStorage.set_latest_version`: store the serialized
updated pointer record under `INFO_KEY` via the run storage's kv table.
The read (inside `get_updated_defs_state_info`) can raise a serialization
error, in which case the kv write never happens. -/
def set_latest_version (s : StorageState) (key version : String) :
    Option StoreErr × StorageState :=
  match get_updated_defs_state_info s key version with
  | Except.error e => (some e, s)
  | Except.ok info =>
      (none, { s with kvs := kvSet s.kvs INFO_KEY (serialize_value info) })

/-- `BlobStorageStateStorage.download_state_to_path`: raise the
state-not-found `ValueError` when no blob exists at the exact
`(key, version)`; otherwise copy the blob bytes to the destination path.
Returns the error (if raised) and the local filesystem afterwards. -/
def download_state_to_path (s : StorageState) (fs : LocalFS)
    (key version path : String) : Option StoreErr × LocalFS :=
  match alistLookup s.blobs (key, version) with
  | none => (some (StoreErr.stateNotFound key version), fs)
  | some bytes => (none, alistInsert fs path bytes)

/-- `BlobStorageStateStorage.upload_state_from_path`: read the source file's
bytes, write them to the blob at `(key, version)` (creating the key
directory first — directory structure is not modelled), then call
`set_latest_version`.  `writeOk` injects the environment's behaviour for the
blob write: when `false` the `write_bytes` call raises an I/O error.  On any
raise the storage at that moment is returned; the cursor kv table is only
touched by the final `set_latest_version` call. -/
def upload_state_from_path (writeOk : Bool) (s : StorageState) (fs : LocalFS)
    (key version path : String) : Option StoreErr × StorageState :=
  match alistLookup fs path with
  | none => (some StoreErr.sourceReadError, s)
  | some bytes =>
      if writeOk then
        let s1 : StorageState :=
          { s with blobs := alistInsert s.blobs (key, version) bytes }
        set_latest_version s1 key version
      else
        (some StoreErr.backendError, s)

/-- The version the pointer record currently publishes for `key`, when the
record exists and decodes. -/
def currentVersion (s : StorageState) (key : String) : Option String :=
  match get_latest_defs_state_info s with
  | Except.ok (some info) =>
      (alistLookup info.info_mapping key).map StateInfo.version
  | _ => none

/-- The pointer-record entry currently published for `key`. -/
def entryFor (s : StorageState) (key : String) : Option StateInfo :=
  match get_latest_defs_state_info s with
  | Except.ok (some info) => alistLookup info.info_mapping key
  | _ => none

/-- The cursor value under `INFO_KEY` is absent or decodable (no corrupt
pointer record). -/
def cursorWF (s : StorageState) : Bool :=
  match kvGet s.kvs INFO_KEY with
  | some Raw.corrupt => false
  | _ => true

/-! Refresh orchestrator (from `dagster_dg_cli/cli/utils.py`) -/

/-- `ComponentStateRefreshStatus.status` values: `updating → success | error`.
The `error` constructor carries the captured exception, mirroring the
record's `error: Optional[Exception]` field (always populated on error). -/
inductive RefreshStatus where
  | updating
  | success
  | error (e : StoreErr)
  deriving DecidableEq, Repr

/-- The orchestrator's in-memory status map, keyed by component state key. -/
abbrev Statuses := List (String × RefreshStatus)

/-- A state-backed component as the orchestrator sees it: a stable state key,
and a refresh operation.  `fails` injects whether the component's own
`refresh_state` raises; otherwise refreshing computes `stateBytes` as the new
state under version `version` and persists it through the facade. -/
structure SBComponent where
  key : String
  version : String
  stateBytes : Bytes
  fails : Bool
  deriving DecidableEq, Repr

/-- The temporary local path a component's refresh writes its state to
before uploading. -/
def TMP_PATH : String := "tmp_state_file"

/-- Modelled from the spec: `StateBackedComponent.refresh_state` (not under
`src/`): "each task asks its component to recompute and persist its own
state via the facade"; on success the new state bytes are uploaded via
`upload_state_from_path(key, version, path)`, and a failing component
raises before touching storage. -/
def refresh_state (c : SBComponent) (s : StorageState) :
    Option StoreErr × StorageState :=
  if c.fails then (some StoreErr.componentRefreshError, s)
  else upload_state_from_path true s [(TMP_PATH, c.stateBytes)]
    c.key c.version TMP_PATH

/-- `_refresh_component`: run one component's refresh, then record `success`
or, on any raised error, record `error` with the captured error value in the
shared status map.  (Display refreshes have no observable state effect and
are not modelled.) -/
def refreshComponentStep (c : SBComponent)
    (st : Statuses × StorageState) : Statuses × StorageState :=
  match refresh_state c st.2 with
  | (none, s2) => (alistInsert st.1 c.key RefreshStatus.success, s2)
  | (some e, s2) => (alistInsert st.1 c.key (RefreshStatus.error e), s2)

/-- `_refresh_components_with_display`: the `asyncio.gather` fan-out/fan-in.
Each task body (`refresh_state` and the status write) is synchronous Python
between suspension points, so under the cooperative event loop the tasks'
effects apply atomically, one task after another; the join is modelled as
the left fold of the per-component steps. -/
def refresh_components_with_display (comps : List SBComponent)
    (st : Statuses × StorageState) : Statuses × StorageState :=
  comps.foldl (fun acc c => refreshComponentStep c acc) st

/-- The status-map initialization in `refresh_component_state`: a dict
comprehension over the components, every key mapped to `updating`. -/
def initStatuses (comps : List SBComponent) : Statuses :=
  comps.foldl (fun m c => alistInsert m c.key RefreshStatus.updating) []

/-- The error-collection loop of `refresh_component_state`: all
`(key, error)` pairs of statuses in the `error` state. -/
def collectErrors (statuses : Statuses) : List (String × StoreErr) :=
  statuses.filterMap fun p =>
    match p.2 with
    | RefreshStatus.error e => some (p.1, e)
    | _ => none

/-- `refresh_component_state` (the CLI command body, display stripped):
initialize every component's status to `updating`, run all refreshes,
collect the `(key, error)` pairs, and fail (re-raise the first error, hence
a non-zero exit) exactly when some component errored.  Returns the final
status map, the final storage state, and whether the command succeeded. -/
def refresh_component_state (comps : List SBComponent) (s : StorageState) :
    Statuses × StorageState × Bool :=
  let st := refresh_components_with_display comps (initStatuses comps, s)
  (st.1, st.2, (collectErrors st.1).isEmpty)

/-- The terminal status a component's refresh task records (under a
functioning backend and well-formed cursor). -/
def statusOf (c : SBComponent) : RefreshStatus :=
  if c.fails then RefreshStatus.error StoreErr.componentRefreshError
  else RefreshStatus.success

/-- The version of the last component in the list that refreshes `k`
successfully, if any. -/
def lastWrittenVersion (comps : List SBComponent) (k : String) : Option String :=
  match comps with
  | [] => none
  | c :: rest =>
      match lastWrittenVersion rest k with
      | some v => some v
      | none =>
          if c.key = k ∧ c.fails = false then some c.version else none

/-- The terminal status of the last component in the list with key `k`,
if any. -/
def lastStatus (comps : List SBComponent) (k : String) : Option RefreshStatus :=
  match comps with
  | [] => none
  | c :: rest =>
      match lastStatus rest k with
      | some st => some st
      | none => if c.key = k then some (statusOf c) else none

/-- A three-component batch in which exactly the middle component's refresh
fails. -/
def sampleBatch : List SBComponent :=
  [⟨"a", "1", [1], false⟩, ⟨"b", "2", [2], true⟩, ⟨"c", "3", [3], false⟩]

/-- A batch in which two components report the same state key. -/
def dupKeyBatch : List SBComponent :=
  [⟨"x", "1", [1], false⟩, ⟨"x", "2", [2], true⟩, ⟨"y", "3", [3], false⟩]

/-! Fine-grained interleaving of `set_latest_version`

`set_latest_version` is one Python statement, but it performs two distinct
calls against the backing kv store: the cursor read (inside
`get_updated_defs_state_info`) and the cursor write (`set_cursor_values`),
with no lock or compare-and-swap between them.  To examine what concurrent
callers can observe, the read-modify-write is split into its two steps and
driven by an explicit schedule. -/

/-- One in-flight `set_latest_version(key, version)` call. -/
structure RMWTask where
  key : String
  version : String
  deriving DecidableEq, Repr

/-- Progress of one in-flight call: not yet read; read done, holding the
computed updated record (or the read's error); finished. -/
inductive RMWPhase where
  | ready
  | computed (r : Except StoreErr DefsStateInfo)
  | done
  deriving Repr

/-- One scheduler step of a single `set_latest_version` call: the first step
performs the cursor read and computes the updated record
(`get_updated_defs_state_info`); the second performs the cursor write
(`set_cursor_values` of the serialized record).  A call whose read raised
performs no write. -/
def rmwStep (t : RMWTask) (ph : RMWPhase) (s : StorageState) :
    RMWPhase × StorageState :=
  match ph with
  | RMWPhase.ready =>
      (RMWPhase.computed (get_updated_defs_state_info s t.key t.version), s)
  | RMWPhase.computed (Except.ok info) =>
      (RMWPhase.done,
        { s with kvs := kvSet s.kvs INFO_KEY (serialize_value info) })
  | RMWPhase.computed (Except.error _) => (RMWPhase.done, s)
  | RMWPhase.done => (RMWPhase.done, s)

/-- Joint state of two concurrent `set_latest_version` calls. -/
structure TwoRMW where
  phaseA : RMWPhase
  phaseB : RMWPhase
  store : StorageState
  deriving Repr

/-- Run two concurrent `set_latest_version` calls under an explicit
schedule: `true` steps call A, `false` steps call B. -/
def runTwoRMW (ta tb : RMWTask) : List Bool → TwoRMW → TwoRMW
  | [], st => st
  | pick :: rest, st =>
      if pick then
        let (ph, s) := rmwStep ta st.phaseA st.store
        runTwoRMW ta tb rest { st with phaseA := ph, store := s }
      else
        let (ph, s) := rmwStep tb st.phaseB st.store
        runTwoRMW ta tb rest { st with phaseB := ph, store := s }

@[simp] theorem alistLookup_nil {α β : Type} [DecidableEq α] (a : α) :
    alistLookup ([] : List (α × β)) a = none := rfl

theorem alistLookup_insert_self {α β : Type} [DecidableEq α]
    (m : List (α × β)) (a : α) (b : β) :
    alistLookup (alistInsert m a b) a = some b := by
  induction m with
  | nil => simp [alistInsert, alistLookup]
  | cons p rest ih =>
      obtain ⟨k, v⟩ := p
      by_cases h : k = a <;> simp [alistInsert, alistLookup, h, ih]

theorem alistLookup_insert_ne {α β : Type} [DecidableEq α]
    (m : List (α × β)) (a a' : α) (b : β) (h : a' ≠ a) :
    alistLookup (alistInsert m a b) a' = alistLookup m a' := by
  induction m with
  | nil => simp [alistInsert, alistLookup, Ne.symm h]
  | cons p rest ih =>
      obtain ⟨k, v⟩ := p
      by_cases hk : k = a
      · subst hk
        simp [alistInsert, alistLookup, Ne.symm h, fun hh : k = a' => h (hh ▸ rfl)]
      · by_cases hk' : k = a' <;> simp [alistInsert, alistLookup, hk, hk', h, ih]

@[simp] theorem alistKeys_nil {α β : Type} :
    alistKeys ([] : List (α × β)) = [] := rfl

@[simp] theorem alistKeys_cons {α β : Type} (k : α) (v : β) (rest : List (α × β)) :
    alistKeys ((k, v) :: rest) = k :: alistKeys rest := rfl

theorem alistKeys_insert_mem {α β : Type} [DecidableEq α]
    (m : List (α × β)) (a : α) (b : β) (h : a ∈ alistKeys m) :
    alistKeys (alistInsert m a b) = alistKeys m := by
  induction m with
  | nil => simp at h
  | cons p rest ih =>
      obtain ⟨k, v⟩ := p
      by_cases hk : k = a
      · simp [alistInsert, hk]
      · have hmem : a ∈ alistKeys rest := by
          rcases List.mem_cons.mp (by simpa using h) with h1 | h1
          · exact absurd h1.symm hk
          · exact h1
        simp [alistInsert, hk, ih hmem]

theorem alistKeys_insert_not_mem {α β : Type} [DecidableEq α]
    (m : List (α × β)) (a : α) (b : β) (h : a ∉ alistKeys m) :
    alistKeys (alistInsert m a b) = alistKeys m ++ [a] := by
  induction m with
  | nil => simp [alistInsert]
  | cons p rest ih =>
      obtain ⟨k, v⟩ := p
      have hk : k ≠ a := fun hh => h (by simp [hh])
      have hrest : a ∉ alistKeys rest := fun hh => h (by simp [hh])
      simp [alistInsert, hk, ih hrest]

theorem alistKeys_insert_nodup {α β : Type} [DecidableEq α]
    (m : List (α × β)) (a : α) (b : β) (h : (alistKeys m).Nodup) :
    (alistKeys (alistInsert m a b)).Nodup := by
  by_cases hm : a ∈ alistKeys m
  · rw [alistKeys_insert_mem m a b hm]; exact h
  · rw [alistKeys_insert_not_mem m a b hm]
    simpa [List.nodup_append] using ⟨h, hm⟩

theorem alistLookup_isSome_of_mem {α β : Type} [DecidableEq α]
    (m : List (α × β)) (a : α) (h : a ∈ alistKeys m) :
    (alistLookup m a).isSome := by
  induction m with
  | nil => simp at h
  | cons p rest ih =>
      obtain ⟨k, v⟩ := p
      by_cases hk : k = a
      · simp [alistLookup, hk]
      · have hmem : a ∈ alistKeys rest := by
          rcases List.mem_cons.mp (by simpa using h) with h1 | h1
          · exact absurd h1.symm hk
          · exact h1
        simp [alistLookup, hk]
        exact ih hmem

theorem alistLookup_none_of_not_mem {α β : Type} [DecidableEq α]
    (m : List (α × β)) (a : α) (h : a ∉ alistKeys m) :
    alistLookup m a = none := by
  induction m with
  | nil => rfl
  | cons p rest ih =>
      obtain ⟨k, v⟩ := p
      have hk : k ≠ a := fun hh => h (by simp [hh])
      have hrest : a ∉ alistKeys rest := fun hh => h (by simp [hh])
      simp [alistLookup, hk]
      exact ih hrest

theorem alistInsert_not_mem {α β : Type} [DecidableEq α]
    (m : List (α × β)) (a : α) (b : β) (h : a ∉ alistKeys m) :
    alistInsert m a b = m ++ [(a, b)] := by
  induction m with
  | nil => rfl
  | cons p rest ih =>
      obtain ⟨k, v⟩ := p
      have hk : k ≠ a := fun hh => h (by simp [hh])
      have hrest : a ∉ alistKeys rest := fun hh => h (by simp [hh])
      simp [alistInsert, hk, ih hrest]

theorem alistInsert_append_head {α β : Type} [DecidableEq α]
    (m₁ m₂ : List (α × β)) (a : α) (b₀ b : β) (h : a ∉ alistKeys m₁) :
    alistInsert (m₁ ++ (a, b₀) :: m₂) a b = m₁ ++ (a, b) :: m₂ := by
  induction m₁ with
  | nil => simp [alistInsert]
  | cons p rest ih =>
      obtain ⟨k, v⟩ := p
      have hk : k ≠ a := fun hh => h (by simp [hh])
      have hrest : a ∉ alistKeys rest := fun hh => h (by simp [hh])
      simp [alistInsert, hk, ih hrest]

theorem alistKeys_insert_mem_iff {α β : Type} [DecidableEq α]
    (m : List (α × β)) (a k : α) (b : β) :
    k ∈ alistKeys (alistInsert m a b) ↔ k ∈ alistKeys m ∨ k = a := by
  by_cases hm : a ∈ alistKeys m
  · rw [alistKeys_insert_mem m a b hm]
    constructor
    · exact Or.inl
    · rintro (hh | rfl)
      · exact hh
      · exact hm
  · rw [alistKeys_insert_not_mem m a b hm]
    simp

/-! Storage lemmas -/

theorem get_latest_after_set (s : StorageState) (info : DefsStateInfo) :
    get_latest_defs_state_info
      { s with kvs := kvSet s.kvs INFO_KEY (serialize_value info) } =
      Except.ok (some info) := by
  simp [get_latest_defs_state_info, kvGet, kvSet, serialize_value,
    alistLookup_insert_self, deserialize_value]

theorem currentVersion_eq_entryFor (s : StorageState) (k : String) :
    currentVersion s k = (entryFor s k).map StateInfo.version := by
  unfold currentVersion entryFor
  cases h : get_latest_defs_state_info s with
  | ok o => cases o <;> simp
  | error e => simp

/-- Full behaviour of a `set_latest_version` call on a well-formed cursor:
it succeeds, leaves the blob namespace alone, publishes `version` for `key`,
preserves every other key's entry, and keeps the cursor well-formed. -/
theorem set_latest_version_spec (s : StorageState) (k v : String)
    (h : cursorWF s = true) :
    ∃ s', set_latest_version s k v = (none, s') ∧
      s'.blobs = s.blobs ∧
      entryFor s' k = some ⟨v⟩ ∧
      (∀ k', k' ≠ k → entryFor s' k' = entryFor s k') ∧
      cursorWF s' = true := by
  cases hkv : alistLookup s.kvs INFO_KEY with
  | none =>
      refine ⟨{ s with kvs := kvSet s.kvs INFO_KEY (serialize_value ⟨alistInsert [] k ⟨v⟩⟩) }, ?_, rfl, ?_, ?_, ?_⟩
      · simp [set_latest_version, get_updated_defs_state_info,
          get_latest_defs_state_info, kvGet, hkv]
      · simp [entryFor, get_latest_defs_state_info, kvGet, kvSet,
          alistLookup_insert_self, serialize_value, deserialize_value]
      · intro k' hk'
        simp [entryFor, get_latest_defs_state_info, kvGet, kvSet,
          alistLookup_insert_self, serialize_value, deserialize_value,
          alistLookup_insert_ne _ _ _ _ hk', alistLookup, hkv, Ne.symm hk']
      · simp [cursorWF, kvGet, kvSet, alistLookup_insert_self, serialize_value]
  | some raw =>
      cases raw with
      | corrupt => simp [cursorWF, kvGet, hkv] at h
      | good info =>
          refine ⟨{ s with kvs := kvSet s.kvs INFO_KEY (serialize_value ⟨alistInsert info.info_mapping k ⟨v⟩⟩) }, ?_, rfl, ?_, ?_, ?_⟩
          · simp [set_latest_version, get_updated_defs_state_info,
              get_latest_defs_state_info, kvGet, hkv, deserialize_value]
          · simp [entryFor, get_latest_defs_state_info, kvGet, kvSet,
              alistLookup_insert_self, serialize_value, deserialize_value]
          · intro k' hk'
            simp [entryFor, get_latest_defs_state_info, kvGet, kvSet,
              alistLookup_insert_self, serialize_value, deserialize_value,
              alistLookup_insert_ne _ _ _ _ hk', hkv]
          · simp [cursorWF, kvGet, kvSet, alistLookup_insert_self,
              serialize_value]

/-- Full behaviour of a successful `upload_state_from_path`: with a readable
source, a functioning blob backend and a well-formed cursor, the upload
succeeds, the blob lands at `(key, version)`, the pointer record publishes
`version` for `key` and preserves every other key's entry. -/
theorem upload_state_from_path_spec (s : StorageState) (fs : LocalFS)
    (k v p : String) (bytes : Bytes)
    (hsrc : alistLookup fs p = some bytes) (h : cursorWF s = true) :
    ∃ s', upload_state_from_path true s fs k v p = (none, s') ∧
      s'.blobs = alistInsert s.blobs (k, v) bytes ∧
      entryFor s' k = some ⟨v⟩ ∧
      (∀ k', k' ≠ k → entryFor s' k' = entryFor s k') ∧
      cursorWF s' = true := by
  have h1 : cursorWF { s with blobs := alistInsert s.blobs (k, v) bytes } = true := by
    simpa [cursorWF, kvGet] using h
  obtain ⟨s', hrun, hblobs, hentry, hframe, hwf⟩ :=
    set_latest_version_spec { s with blobs := alistInsert s.blobs (k, v) bytes } k v h1
  refine ⟨s', ?_, ?_, hentry, ?_, hwf⟩
  · simp [upload_state_from_path, hsrc, hrun]
  · simpa using hblobs
  · intro k' hk'
    rw [hframe k' hk']
    unfold entryFor get_latest_defs_state_info kvGet
    simp

/-! Claims about the storage facade -/

/-- C1 (write-before-publish): if the blob-write phase of
`upload_state_from_path(key, version, path)` raises, the call returns with
an error, the storage (in particular the cursor kv table — so
`set_latest_version` was never invoked) is exactly as before, and
`get_latest_defs_state_info` afterwards contains no entry mapping `key` to
that version when it did not already do so. -/
theorem claim_C1_write_before_publish (s : StorageState) (fs : LocalFS)
    (k v p : String) (hv : currentVersion s k ≠ some v) :
    ((upload_state_from_path false s fs k v p).1).isSome = true ∧
    (upload_state_from_path false s fs k v p).2 = s ∧
    currentVersion (upload_state_from_path false s fs k v p).2 k ≠ some v := by
  unfold upload_state_from_path
  cases alistLookup fs p <;> simp [hv]

theorem claim_C1_write_before_publish_witness :
    currentVersion ⟨[], []⟩ "x" ≠ some "v1" ∧
    (((upload_state_from_path false ⟨[], []⟩ [("p", [1])] "x" "v1" "p").1).isSome = true ∧
     (upload_state_from_path false ⟨[], []⟩ [("p", [1])] "x" "v1" "p").2 = ⟨[], []⟩ ∧
     currentVersion (upload_state_from_path false ⟨[], []⟩ [("p", [1])] "x" "v1" "p").2 "x" ≠ some "v1") :=
  ⟨by decide,
   claim_C1_write_before_publish ⟨[], []⟩ [("p", [1])] "x" "v1" "p" (by decide)⟩

/-- C3 (frame effect of `set_latest_version`): on any well-formed prior
pointer-record state, `set_latest_version(key, version)` succeeds, the
resulting record maps `key` to `version`, and every other key keeps exactly
the entry it had before the call. -/
theorem claim_C3_set_latest_version_frame (s : StorageState) (k v : String)
    (h : cursorWF s = true) :
    ∃ s', set_latest_version s k v = (none, s') ∧
      entryFor s' k = some ⟨v⟩ ∧
      ∀ k', k' ≠ k → entryFor s' k' = entryFor s k' := by
  obtain ⟨s', h1, _, h2, h3, _⟩ := set_latest_version_spec s k v h
  exact ⟨s', h1, h2, h3⟩

theorem claim_C3_set_latest_version_frame_witness :
    cursorWF ⟨[], [(INFO_KEY, Raw.good ⟨[("other", ⟨"o1"⟩)]⟩)]⟩ = true ∧
    (∃ s', set_latest_version ⟨[], [(INFO_KEY, Raw.good ⟨[("other", ⟨"o1"⟩)]⟩)]⟩ "x" "v1" = (none, s') ∧
      entryFor s' "x" = some ⟨"v1"⟩ ∧
      ∀ k', k' ≠ "x" → entryFor s' k' =
        entryFor ⟨[], [(INFO_KEY, Raw.good ⟨[("other", ⟨"o1"⟩)]⟩)]⟩ k') :=
  ⟨by decide,
   claim_C3_set_latest_version_frame ⟨[], [(INFO_KEY, Raw.good ⟨[("other", ⟨"o1"⟩)]⟩)]⟩ "x" "v1" (by decide)⟩

/-- C5 (round-trip): uploading a source file's bytes at `(key, version)` and
then downloading the same `(key, version)` to a destination path writes
exactly the original bytes to the destination. -/
theorem claim_C5_roundtrip (s : StorageState) (fs destFS : LocalFS)
    (k v p dest : String) (bytes : Bytes)
    (hsrc : alistLookup fs p = some bytes) (h : cursorWF s = true) :
    ∃ s', upload_state_from_path true s fs k v p = (none, s') ∧
      download_state_to_path s' destFS k v dest =
        (none, alistInsert destFS dest bytes) ∧
      alistLookup (alistInsert destFS dest bytes) dest = some bytes := by
  obtain ⟨s', h1, hblobs, _, _, _⟩ :=
    upload_state_from_path_spec s fs k v p bytes hsrc h
  refine ⟨s', h1, ?_, alistLookup_insert_self _ _ _⟩
  simp [download_state_to_path, hblobs, alistLookup_insert_self]

theorem claim_C5_roundtrip_witness :
    alistLookup [("p", [1, 2, 3])] "p" = some [1, 2, 3] ∧
    cursorWF ⟨[], []⟩ = true ∧
    (∃ s', upload_state_from_path true ⟨[], []⟩ [("p", [1, 2, 3])] "x" "v1" "p" = (none, s') ∧
      download_state_to_path s' [] "x" "v1" "d" =
        (none, alistInsert [] "d" [1, 2, 3]) ∧
      alistLookup (alistInsert [] "d" [1, 2, 3]) "d" = some [1, 2, 3]) :=
  ⟨by decide, by decide,
   claim_C5_roundtrip ⟨[], []⟩ [("p", [1, 2, 3])] [] "x" "v1" "p" "d" [1, 2, 3]
     (by decide) (by decide)⟩

/-- C6: downloading a `(key, version)` for which no blob was ever uploaded
raises the state-not-found error and leaves the local filesystem untouched
(no file is created or modified at the destination); this holds even when
other versions of the same key exist, so there is no fallback. -/
theorem claim_C6_download_not_found (s : StorageState) (fs : LocalFS)
    (k v dest : String) (h : alistLookup s.blobs (k, v) = none) :
    download_state_to_path s fs k v dest =
      (some (StoreErr.stateNotFound k v), fs) := by
  simp [download_state_to_path, h]

theorem claim_C6_download_not_found_witness :
    alistLookup (StorageState.blobs ⟨[(("x", "v2"), [7])], []⟩) ("x", "v1") = none ∧
    download_state_to_path ⟨[(("x", "v2"), [7])], []⟩ [] "x" "v1" "d" =
      (some (StoreErr.stateNotFound "x" "v1"), []) :=
  ⟨by decide,
   claim_C6_download_not_found ⟨[(("x", "v2"), [7])], []⟩ [] "x" "v1" "d" (by decide)⟩

/-- C7: `get_latest_defs_state_info` returns `none` exactly when no value was
ever stored under the well-known cursor key, and raises the serialization
error (never returning `none` or an empty mapping) when a stored value
cannot be decoded — absence and corruption are surfaced distinctly. -/
theorem claim_C7_absent_vs_corrupt (s : StorageState) :
    (get_latest_defs_state_info s = Except.ok none ↔
      kvGet s.kvs INFO_KEY = none) ∧
    (kvGet s.kvs INFO_KEY = some Raw.corrupt →
      get_latest_defs_state_info s = Except.error StoreErr.serializationError) := by
  constructor
  · constructor
    · intro hh
      cases hkv : alistLookup s.kvs INFO_KEY with
      | none => simpa [kvGet] using hkv
      | some raw =>
          cases raw <;>
            simp [get_latest_defs_state_info, kvGet, hkv, deserialize_value] at hh
    · intro hh
      simp only [kvGet] at hh
      simp [get_latest_defs_state_info, kvGet, hh]
  · intro hh
    simp only [kvGet] at hh
    simp [get_latest_defs_state_info, kvGet, hh, deserialize_value]

theorem claim_C7_absent_vs_corrupt_witness :
    get_latest_defs_state_info ⟨[], [(INFO_KEY, Raw.corrupt)]⟩ =
      Except.error StoreErr.serializationError ∧
    get_latest_defs_state_info ⟨[], []⟩ = Except.ok none :=
  ⟨(claim_C7_absent_vs_corrupt ⟨[], [(INFO_KEY, Raw.corrupt)]⟩).2 (by decide),
   (claim_C7_absent_vs_corrupt ⟨[], []⟩).1.mpr (by decide)⟩

/-- C8 (idempotent re-refresh): a second `upload_state_from_path` with the
same `(key, version)` succeeds without error even though the blob at
`(key, version)` already exists after the first call, and afterwards the
pointer record's entry for `key` still references that same version. -/
theorem claim_C8_idempotent_reupload (s : StorageState) (fs : LocalFS)
    (k v p : String) (bytes : Bytes)
    (hsrc : alistLookup fs p = some bytes) (h : cursorWF s = true) :
    ∃ s1, upload_state_from_path true s fs k v p = (none, s1) ∧
      alistLookup s1.blobs (k, v) = some bytes ∧
      ∃ s2, upload_state_from_path true s1 fs k v p = (none, s2) ∧
        entryFor s2 k = some ⟨v⟩ := by
  obtain ⟨s1, h1, hb1, _, _, hwf1⟩ :=
    upload_state_from_path_spec s fs k v p bytes hsrc h
  obtain ⟨s2, h2, _, he2, _, _⟩ :=
    upload_state_from_path_spec s1 fs k v p bytes hsrc hwf1
  exact ⟨s1, h1, by simp [hb1, alistLookup_insert_self], s2, h2, he2⟩

theorem claim_C8_idempotent_reupload_witness :
    alistLookup [("p", [9])] "p" = some [9] ∧
    cursorWF ⟨[], []⟩ = true ∧
    (∃ s1, upload_state_from_path true ⟨[], []⟩ [("p", [9])] "x" "v1" "p" = (none, s1) ∧
      alistLookup s1.blobs ("x", "v1") = some [9] ∧
      ∃ s2, upload_state_from_path true s1 [("p", [9])] "x" "v1" "p" = (none, s2) ∧
        entryFor s2 "x" = some ⟨"v1"⟩) :=
  ⟨by decide, by decide,
   claim_C8_idempotent_reupload ⟨[], []⟩ [("p", [9])] "x" "v1" "p" [9]
     (by decide) (by decide)⟩

/-! Claims about concurrent `set_latest_version` calls -/

theorem get_updated_of_wf (s : StorageState) (k v : String)
    (h : cursorWF s = true) :
    ∃ info, get_updated_defs_state_info s k v = Except.ok info ∧
      set_latest_version s k v =
        (none, { s with kvs := kvSet s.kvs INFO_KEY (serialize_value info) }) := by
  cases hkv : alistLookup s.kvs INFO_KEY with
  | none =>
      refine ⟨⟨alistInsert [] k ⟨v⟩⟩, ?_, ?_⟩ <;>
        simp [set_latest_version, get_updated_defs_state_info,
          get_latest_defs_state_info, kvGet, hkv]
  | some raw =>
      cases raw with
      | corrupt => simp [cursorWF, kvGet, hkv] at h
      | good info =>
          refine ⟨⟨alistInsert info.info_mapping k ⟨v⟩⟩, ?_, ?_⟩ <;>
            simp [set_latest_version, get_updated_defs_state_info,
              get_latest_defs_state_info, kvGet, hkv, deserialize_value]

/-- C2 counterexample: the storage layer does not serialize the
read-modify-write.  Two concurrent `set_latest_version` calls for distinct
keys `"a"` and `"b"`, interleaved as read-A, read-B, write-A, write-B, both
run to completion, yet the final pointer record has no entry for `"a"` —
the second write erased the first call's update. -/
theorem claim_C2_counterexample :
    (runTwoRMW ⟨"a", "1"⟩ ⟨"b", "2"⟩ [true, false, true, false]
        ⟨RMWPhase.ready, RMWPhase.ready, ⟨[], []⟩⟩).phaseA = RMWPhase.done ∧
    (runTwoRMW ⟨"a", "1"⟩ ⟨"b", "2"⟩ [true, false, true, false]
        ⟨RMWPhase.ready, RMWPhase.ready, ⟨[], []⟩⟩).phaseB = RMWPhase.done ∧
    entryFor (runTwoRMW ⟨"a", "1"⟩ ⟨"b", "2"⟩ [true, false, true, false]
        ⟨RMWPhase.ready, RMWPhase.ready, ⟨[], []⟩⟩).store "b" = some ⟨"2"⟩ ∧
    entryFor (runTwoRMW ⟨"a", "1"⟩ ⟨"b", "2"⟩ [true, false, true, false]
        ⟨RMWPhase.ready, RMWPhase.ready, ⟨[], []⟩⟩).store "a" = none :=
  ⟨rfl, rfl, rfl, rfl⟩

/-- C2 as amended: the code serializes nothing, so lost updates are possible
(see the counterexample); but when the two `set_latest_version` calls do not
interleave — each call's read and write run back to back, as under the
cooperative event loop where `set_latest_version` is a synchronous section —
the resulting pointer record contains both keys' new entries. -/
theorem claim_C2_no_lost_update_when_serial (ta tb : RMWTask)
    (s : StorageState) (hk : ta.key ≠ tb.key) (h : cursorWF s = true) :
    ∃ sfin, runTwoRMW ta tb [true, true, false, false]
        ⟨RMWPhase.ready, RMWPhase.ready, s⟩ =
        ⟨RMWPhase.done, RMWPhase.done, sfin⟩ ∧
      entryFor sfin ta.key = some ⟨ta.version⟩ ∧
      entryFor sfin tb.key = some ⟨tb.version⟩ := by
  obtain ⟨ia, hia, hsa⟩ := get_updated_of_wf s ta.key ta.version h
  obtain ⟨sa, hruna, _, hea, _, hwfa⟩ := set_latest_version_spec s ta.key ta.version h
  have hsaeq : ({ s with kvs := kvSet s.kvs INFO_KEY (serialize_value ia) } : StorageState) = sa := by
    have h2 := hsa.symm.trans hruna
    exact ((Prod.mk.injEq _ _ _ _).mp h2).2
  obtain ⟨ib, hib, hsb⟩ := get_updated_of_wf sa tb.key tb.version hwfa
  obtain ⟨sb, hrunb, _, heb, hfrb, _⟩ := set_latest_version_spec sa tb.key tb.version hwfa
  have hsbeq : ({ sa with kvs := kvSet sa.kvs INFO_KEY (serialize_value ib) } : StorageState) = sb := by
    have h2 := hsb.symm.trans hrunb
    exact ((Prod.mk.injEq _ _ _ _).mp h2).2
  refine ⟨sb, ?_, ?_, heb⟩
  · simp only [serialize_value] at hsaeq hsbeq
    rw [← hsaeq] at hib hsbeq
    simp only [] at hsbeq
    simp [runTwoRMW, rmwStep, serialize_value, hia, hib, hsbeq]
  · rw [hfrb ta.key hk]
    exact hea

theorem claim_C2_no_lost_update_when_serial_witness :
    ("a" : String) ≠ "b" ∧ cursorWF ⟨[], []⟩ = true ∧
    (∃ sfin, runTwoRMW ⟨"a", "1"⟩ ⟨"b", "2"⟩ [true, true, false, false]
        ⟨RMWPhase.ready, RMWPhase.ready, ⟨[], []⟩⟩ =
        ⟨RMWPhase.done, RMWPhase.done, sfin⟩ ∧
      entryFor sfin "a" = some ⟨"1"⟩ ∧
      entryFor sfin "b" = some ⟨"2"⟩) :=
  ⟨by decide, by decide,
   claim_C2_no_lost_update_when_serial ⟨"a", "1"⟩ ⟨"b", "2"⟩ ⟨[], []⟩
     (by decide) (by decide)⟩

/-! Orchestrator lemmas -/

theorem refreshComponentStep_spec (c : SBComponent) (m : Statuses)
    (s : StorageState) (h : cursorWF s = true) :
    ∃ s', refreshComponentStep c (m, s) =
        (alistInsert m c.key (statusOf c), s') ∧
      cursorWF s' = true ∧
      (∀ k, k ≠ c.key → entryFor s' k = entryFor s k) ∧
      (c.fails = true → s' = s) ∧
      (c.fails = false → entryFor s' c.key = some ⟨c.version⟩) := by
  cases hf : c.fails with
  | true =>
      refine ⟨s, ?_, h, fun k _ => rfl, fun _ => rfl,
        fun hh => Bool.noConfusion hh⟩
      simp [refreshComponentStep, refresh_state, hf, statusOf]
  | false =>
      obtain ⟨s', hrun, _, hent, hframe, hwf⟩ :=
        upload_state_from_path_spec s [(TMP_PATH, c.stateBytes)]
          c.key c.version TMP_PATH c.stateBytes (by simp [alistLookup]) h
      refine ⟨s', ?_, hwf, hframe,
        fun hh => Bool.noConfusion hh, fun _ => hent⟩
      simp [refreshComponentStep, refresh_state, hf, statusOf, hrun]

theorem refresh_components_spec (comps : List SBComponent) (m : Statuses)
    (s : StorageState) (h : cursorWF s = true) :
    ∃ s', refresh_components_with_display comps (m, s) =
        (comps.foldl (fun mm c => alistInsert mm c.key (statusOf c)) m, s') ∧
      cursorWF s' = true ∧
      ∀ k, entryFor s' k =
        match lastWrittenVersion comps k with
        | some v => some ⟨v⟩
        | none => entryFor s k := by
  induction comps generalizing m s with
  | nil => exact ⟨s, rfl, h, fun k => rfl⟩
  | cons c rest ih =>
      obtain ⟨s1, hstep, hwf1, hframe, hfail, hsucc⟩ :=
        refreshComponentStep_spec c m s h
      obtain ⟨s', hrun, hwf', hent⟩ :=
        ih (alistInsert m c.key (statusOf c)) s1 hwf1
      refine ⟨s', ?_, hwf', ?_⟩
      · have hc : refresh_components_with_display (c :: rest) (m, s) =
            refresh_components_with_display rest (refreshComponentStep c (m, s)) := rfl
        rw [hc, hstep, hrun]
        rfl
      · intro k
        rw [hent k]
        cases hl : lastWrittenVersion rest k with
        | some v => simp [lastWrittenVersion, hl]
        | none =>
            by_cases hk : c.key = k ∧ c.fails = false
            · obtain ⟨hk1, hk2⟩ := hk
              subst hk1
              simp [lastWrittenVersion, hl, hk2, hsucc hk2]
            · simp only [lastWrittenVersion, hl]
              rw [if_neg hk]
              by_cases hkk : c.key = k
              · have hf : c.fails = true := by
                  cases hff : c.fails with
                  | true => rfl
                  | false => exact absurd ⟨hkk, hff⟩ hk
                rw [hfail hf]
              · exact hframe k (fun hh => hkk hh.symm)

theorem foldl_insert_fresh (g : SBComponent → RefreshStatus)
    (comps : List SBComponent) (m : Statuses)
    (hnd : (comps.map SBComponent.key).Nodup)
    (hdisj : ∀ c ∈ comps, c.key ∉ alistKeys m) :
    comps.foldl (fun mm c => alistInsert mm c.key (g c)) m =
      m ++ comps.map (fun c => (c.key, g c)) := by
  induction comps generalizing m with
  | nil => simp
  | cons c rest ih =>
      have h1 : c.key ∉ alistKeys m := hdisj c (by simp)
      rw [List.foldl_cons, alistInsert_not_mem m c.key (g c) h1]
      have hnd' : (rest.map SBComponent.key).Nodup := (List.nodup_cons.mp hnd).2
      have hck : c.key ∉ rest.map SBComponent.key := (List.nodup_cons.mp hnd).1
      rw [ih (m ++ [(c.key, g c)]) hnd' ?_]
      · simp
      · intro c' hc'
        have h2 : c'.key ∉ alistKeys m := hdisj c' (by simp [hc'])
        have h3 : c'.key ≠ c.key := by
          intro hh
          exact hck (hh ▸ List.mem_map_of_mem SBComponent.key hc')
        intro hmem
        rw [alistKeys, List.map_append] at hmem
        rcases List.mem_append.mp hmem with hm | hm
        · exact h2 (by simpa [alistKeys] using hm)
        · simp at hm
          exact h3 hm

theorem foldl_insert_update (g f : SBComponent → RefreshStatus)
    (comps : List SBComponent) (pre : Statuses)
    (hnd : (comps.map SBComponent.key).Nodup)
    (hdisj : ∀ c ∈ comps, c.key ∉ alistKeys pre) :
    comps.foldl (fun mm c => alistInsert mm c.key (g c))
        (pre ++ comps.map fun c => (c.key, f c)) =
      pre ++ comps.map (fun c => (c.key, g c)) := by
  induction comps generalizing pre with
  | nil => simp
  | cons c rest ih =>
      have h1 : c.key ∉ alistKeys pre := hdisj c (by simp)
      have hstep : alistInsert (pre ++ (c.key, f c) :: rest.map fun c => (c.key, f c))
          c.key (g c) = pre ++ (c.key, g c) :: rest.map fun c => (c.key, f c) :=
        alistInsert_append_head pre _ c.key (f c) (g c) h1
      have hnd' : (rest.map SBComponent.key).Nodup := (List.nodup_cons.mp hnd).2
      have hck : c.key ∉ rest.map SBComponent.key := (List.nodup_cons.mp hnd).1
      have hdisj' : ∀ c' ∈ rest, c'.key ∉ alistKeys (pre ++ [(c.key, g c)]) := by
        intro c' hc'
        have h2 : c'.key ∉ alistKeys pre := hdisj c' (by simp [hc'])
        have h3 : c'.key ≠ c.key := by
          intro hh
          exact hck (hh ▸ List.mem_map_of_mem SBComponent.key hc')
        intro hmem
        rw [alistKeys, List.map_append] at hmem
        rcases List.mem_append.mp hmem with hm | hm
        · exact h2 (by simpa [alistKeys] using hm)
        · simp at hm
          exact h3 hm
      have := ih (pre ++ [(c.key, g c)]) hnd' hdisj'
      simp only [List.map_cons, List.foldl_cons, hstep]
      simp only [List.append_assoc, List.singleton_append] at this
      exact this

theorem initStatuses_eq (comps : List SBComponent)
    (hnd : (comps.map SBComponent.key).Nodup) :
    initStatuses comps = comps.map fun c => (c.key, RefreshStatus.updating) := by
  have := foldl_insert_fresh (fun _ => RefreshStatus.updating) comps [] hnd
    (fun c _ => by simp)
  simpa [initStatuses] using this

theorem collectErrors_map (comps : List SBComponent) :
    collectErrors (comps.map fun c => (c.key, statusOf c)) =
      (comps.filter fun c => c.fails).map
        fun c => (c.key, StoreErr.componentRefreshError) := by
  induction comps with
  | nil => rfl
  | cons c rest ih =>
      cases hf : c.fails <;>
        simp [collectErrors, statusOf, hf, List.filter_cons] at ih ⊢ <;>
        exact ih

theorem lastWrittenVersion_none_of_not_mem (comps : List SBComponent)
    (k : String) (h : k ∉ comps.map SBComponent.key) :
    lastWrittenVersion comps k = none := by
  induction comps with
  | nil => rfl
  | cons c rest ih =>
      have hk : c.key ≠ k := fun hh => h (by simp [hh])
      have hrest : k ∉ rest.map SBComponent.key := fun hh => h (by simp [hh])
      simp [lastWrittenVersion, ih hrest, hk]

theorem lastWrittenVersion_of_nodup (comps : List SBComponent)
    (c : SBComponent) (hc : c ∈ comps) (hf : c.fails = false)
    (hnd : (comps.map SBComponent.key).Nodup) :
    lastWrittenVersion comps c.key = some c.version := by
  induction comps with
  | nil => cases hc
  | cons d rest ih =>
      have hnd' : (rest.map SBComponent.key).Nodup := (List.nodup_cons.mp hnd).2
      have hdk : d.key ∉ rest.map SBComponent.key := (List.nodup_cons.mp hnd).1
      rcases List.mem_cons.mp hc with rfl | hc'
      · have hnone : lastWrittenVersion rest c.key = none :=
          lastWrittenVersion_none_of_not_mem rest c.key hdk
        simp [lastWrittenVersion, hnone, hf]
      · have := ih hc' hnd'
        simp [lastWrittenVersion, this]

theorem alistKeys_foldl_insert_nodup {β : Type} (g : SBComponent → β)
    (comps : List SBComponent) (m : List (String × β))
    (h : (alistKeys m).Nodup) :
    (alistKeys (comps.foldl (fun mm c => alistInsert mm c.key (g c)) m)).Nodup := by
  induction comps generalizing m with
  | nil => exact h
  | cons c rest ih =>
      rw [List.foldl_cons]
      exact ih _ (alistKeys_insert_nodup m c.key (g c) h)

theorem alistKeys_foldl_insert_mem {β : Type} (g : SBComponent → β)
    (comps : List SBComponent) (m : List (String × β)) (k : String) :
    k ∈ alistKeys (comps.foldl (fun mm c => alistInsert mm c.key (g c)) m) ↔
      k ∈ alistKeys m ∨ k ∈ comps.map SBComponent.key := by
  induction comps generalizing m with
  | nil => simp
  | cons c rest ih =>
      rw [List.foldl_cons, ih]
      rw [alistKeys_insert_mem_iff]
      simp [or_assoc]

theorem alistLookup_foldl_statusOf (comps : List SBComponent)
    (m : Statuses) (k : String) :
    alistLookup (comps.foldl (fun mm c => alistInsert mm c.key (statusOf c)) m) k =
      match lastStatus comps k with
      | some st => some st
      | none => alistLookup m k := by
  induction comps generalizing m with
  | nil => rfl
  | cons c rest ih =>
      rw [List.foldl_cons, ih]
      cases hl : lastStatus rest k with
      | some st => simp [lastStatus, hl]
      | none =>
          by_cases hk : c.key = k
          · subst hk
            simp [lastStatus, hl, alistLookup_insert_self]
          · simp [lastStatus, hl, hk,
              alistLookup_insert_ne _ _ _ _ (fun hh => hk hh.symm)]

theorem lastStatus_none_of_not_mem (comps : List SBComponent) (k : String)
    (h : k ∉ comps.map SBComponent.key) :
    lastStatus comps k = none := by
  induction comps with
  | nil => rfl
  | cons c rest ih =>
      have hk : c.key ≠ k := fun hh => h (by simp [hh])
      have hrest : k ∉ rest.map SBComponent.key := fun hh => h (by simp [hh])
      simp [lastStatus, ih hrest, hk]

theorem lastStatus_mem_of_some (comps : List SBComponent) (k : String)
    (st : RefreshStatus) (h : lastStatus comps k = some st) :
    st ≠ RefreshStatus.updating := by
  induction comps with
  | nil => cases h
  | cons c rest ih =>
      simp only [lastStatus] at h
      cases hl : lastStatus rest k with
      | some st' =>
          rw [hl] at h
          exact ih (hl.trans (by injection h with hh; rw [hh]))
      | none =>
          rw [hl] at h
          by_cases hk : c.key = k
          · rw [if_pos hk] at h
            injection h with hh
            rw [← hh]
            cases hf : c.fails <;> simp [statusOf, hf]
          · rw [if_neg hk] at h
            cases h

theorem lastStatus_isSome_of_mem (comps : List SBComponent) (k : String)
    (h : k ∈ comps.map SBComponent.key) :
    (lastStatus comps k).isSome := by
  induction comps with
  | nil => simp at h
  | cons c rest ih =>
      simp only [lastStatus]
      cases hls : lastStatus rest k with
      | some st => simp
      | none =>
          rw [List.map_cons] at h
          have hk : c.key = k := by
            rcases List.mem_cons.mp h with h1 | h1
            · exact h1.symm
            · have := ih h1
              rw [hls] at this
              cases this
          simp [hk]

/-! Claims about the refresh orchestrator -/

/-- C9: refreshing an empty set of components succeeds (ok outcome), records
no statuses and no errors, and leaves the storage — in particular the
pointer record — exactly as it was (absent stays absent). -/
theorem claim_C9_empty_refresh (s : StorageState) :
    refresh_component_state [] s = ([], s, true) ∧
    get_latest_defs_state_info (refresh_component_state [] s).2.1 =
      get_latest_defs_state_info s :=
  ⟨rfl, rfl⟩

/-- C4 (partial-failure isolation): when at least one component of the batch
fails, the command signals a failed outcome, the collected error list is
exactly the `(key, error)` pairs of all failing components, and the pointer
record still holds the up-to-date entry of every component that succeeded —
no rollback. -/
theorem claim_C4_partial_failure_isolation (comps : List SBComponent)
    (s : StorageState) (hnd : (comps.map SBComponent.key).Nodup)
    (h : cursorWF s = true) (hex : ∃ c ∈ comps, c.fails = true) :
    (refresh_component_state comps s).2.2 = false ∧
    collectErrors (refresh_component_state comps s).1 =
      ((comps.filter fun c => c.fails).map
        fun c => (c.key, StoreErr.componentRefreshError)) ∧
    ∀ c ∈ comps, c.fails = false →
      entryFor (refresh_component_state comps s).2.1 c.key =
        some ⟨c.version⟩ := by
  obtain ⟨s', hrun, hwf', hent⟩ :=
    refresh_components_spec comps (initStatuses comps) s h
  have hfold : comps.foldl (fun mm c => alistInsert mm c.key (statusOf c))
      (initStatuses comps) = comps.map fun c => (c.key, statusOf c) := by
    rw [initStatuses_eq comps hnd]
    have := foldl_insert_update statusOf (fun _ => RefreshStatus.updating)
      comps [] hnd (fun c _ => by simp)
    simpa using this
  have hm : (refresh_component_state comps s).1 =
      comps.map fun c => (c.key, statusOf c) := by
    simp [refresh_component_state, hrun, hfold]
  have hs : (refresh_component_state comps s).2.1 = s' := by
    simp [refresh_component_state, hrun]
  refine ⟨?_, ?_, ?_⟩
  · obtain ⟨c, hc, hcf⟩ := hex
    have hmem : c ∈ comps.filter (fun c => c.fails) :=
      List.mem_filter.mpr ⟨hc, hcf⟩
    cases hfil : comps.filter (fun c => c.fails) with
    | nil => rw [hfil] at hmem; cases hmem
    | cons d ds =>
        simp [refresh_component_state, hrun, hfold, collectErrors_map, hfil,
          List.isEmpty]
  · rw [hm, collectErrors_map]
  · intro c hc hcf
    rw [hs, hent c.key, lastWrittenVersion_of_nodup comps c hc hcf hnd]

theorem claim_C4_partial_failure_isolation_witness :
    (sampleBatch.map SBComponent.key).Nodup ∧
    cursorWF ⟨[], []⟩ = true ∧
    (∃ c ∈ sampleBatch, c.fails = true) ∧
    ((refresh_component_state sampleBatch ⟨[], []⟩).2.2 = false ∧
      collectErrors (refresh_component_state sampleBatch ⟨[], []⟩).1 =
        ((sampleBatch.filter fun c => c.fails).map
          fun c => (c.key, StoreErr.componentRefreshError)) ∧
      ∀ c ∈ sampleBatch, c.fails = false →
        entryFor (refresh_component_state sampleBatch ⟨[], []⟩).2.1 c.key =
          some ⟨c.version⟩) :=
  ⟨by decide, by decide, by decide,
   claim_C4_partial_failure_isolation sampleBatch ⟨[], []⟩
     (by decide) (by decide) (by decide)⟩

/-- C10: after the fan-in join, the in-memory status map has exactly one
entry per distinct state key (components sharing a key collapse into one
entry, the later transition overwriting the earlier), its keys are exactly
the components' keys, and every entry is terminal — `success` or `error`,
never `updating`. -/
theorem claim_C10_status_map_terminal (comps : List SBComponent)
    (s : StorageState) (h : cursorWF s = true) :
    (alistKeys (refresh_component_state comps s).1).Nodup ∧
    (∀ k, k ∈ alistKeys (refresh_component_state comps s).1 ↔
      k ∈ comps.map SBComponent.key) ∧
    (∀ k, alistLookup (refresh_component_state comps s).1 k =
      lastStatus comps k) ∧
    (∀ k st, alistLookup (refresh_component_state comps s).1 k = some st →
      st ≠ RefreshStatus.updating) := by
  obtain ⟨s', hrun, _, _⟩ :=
    refresh_components_spec comps (initStatuses comps) s h
  have hm : (refresh_component_state comps s).1 =
      comps.foldl (fun mm c => alistInsert mm c.key (statusOf c))
        (initStatuses comps) := by
    simp [refresh_component_state, hrun]
  have hinit_nodup : (alistKeys (initStatuses comps)).Nodup := by
    have := alistKeys_foldl_insert_nodup (fun _ => RefreshStatus.updating)
      comps [] (by simp)
    simpa [initStatuses] using this
  have hinit_mem : ∀ k, k ∈ alistKeys (initStatuses comps) ↔
      k ∈ comps.map SBComponent.key := by
    intro k
    have := alistKeys_foldl_insert_mem (fun _ => RefreshStatus.updating)
      comps [] k
    simpa [initStatuses] using this
  have hlookup : ∀ k, alistLookup (refresh_component_state comps s).1 k =
      lastStatus comps k := by
    intro k
    rw [hm, alistLookup_foldl_statusOf]
    cases hl : lastStatus comps k with
    | some st => simp
    | none =>
        simp only []
        apply alistLookup_none_of_not_mem
        intro hmem
        have hk : k ∈ comps.map SBComponent.key := (hinit_mem k).mp hmem
        have := lastStatus_isSome_of_mem comps k hk
        rw [hl] at this
        cases this
  refine ⟨?_, ?_, hlookup, ?_⟩
  · rw [hm]
    exact alistKeys_foldl_insert_nodup statusOf comps _ hinit_nodup
  · intro k
    rw [hm, alistKeys_foldl_insert_mem]
    constructor
    · rintro (hh | hh)
      · exact (hinit_mem k).mp hh
      · exact hh
    · exact Or.inr
  · intro k st hlk
    rw [hlookup k] at hlk
    exact lastStatus_mem_of_some comps k st hlk

theorem claim_C10_status_map_terminal_witness :
    cursorWF ⟨[], []⟩ = true ∧
    ((alistKeys (refresh_component_state dupKeyBatch ⟨[], []⟩).1).Nodup ∧
      (∀ k, k ∈ alistKeys (refresh_component_state dupKeyBatch ⟨[], []⟩).1 ↔
        k ∈ dupKeyBatch.map SBComponent.key) ∧
      (∀ k, alistLookup (refresh_component_state dupKeyBatch ⟨[], []⟩).1 k =
        lastStatus dupKeyBatch k) ∧
      (∀ k st, alistLookup (refresh_component_state dupKeyBatch ⟨[], []⟩).1 k = some st →
        st ≠ RefreshStatus.updating)) :=
  ⟨by decide,
   claim_C10_status_map_terminal dupKeyBatch ⟨[], []⟩ (by decide)⟩

end DefsState
